import Mathlib

set_option maxRecDepth 100000

/-
Verification of the encoding / fork-registry core of adirola/polygon-edge.

Shallow embedding conventions:
  * Go byte slices are `List Nat` (each entry < 256 in well-formed data).
  * Go `error` returns are `Except Fault _`; a Go `panic` (fatal fault) is the
    distinguished constructor `Fault.fatal`, an ordinary returned `error` is
    `Fault.err`.  Index-out-of-range runtime faults are `Fault.fatal`.
  * Go maps are association lists with first-match lookup and
    replace-or-append insertion.
  * `sort.Search` from the Go standard library is embedded as the exact
    binary-search loop Go runs, made structural with a fuel argument that is
    always sufficient (`fuel ≥ j - i`; the loop shrinks `j - i` every step
    and is entered with `fuel = n = j - i`).
-/

namespace PE

/-- A Go-side failure: `err` is an ordinary returned `error` value,
`fatal` is a `panic` / runtime fault that halts the process. -/
inductive Fault where
  | err (msg : String)
  | fatal (msg : String)
deriving DecidableEq, Repr

deriving instance DecidableEq for Except

/-- Result of a Go computation: a value, a returned error, or a panic. -/
abbrev Res (α : Type) := Except Fault α

def isFatal {α : Type} : Res α → Bool
  | .error (.fatal _) => true
  | _ => false

/-! ## Go `sort.Search`

Go source (stdlib `sort/search.go`):
```
i, j := 0, n
for i < j {
    h := int(uint(i+j) >> 1)
    if !f(h) { i = h + 1 } else { j = h }
}
return i
```
`searchLoop` runs the same loop; the fuel argument only bounds the number of
iterations and never influences the result when `fuel ≥ j - i`. -/
def searchLoop (f : Nat → Bool) : Nat → Nat → Nat → Nat
  | 0, i, _ => i
  | fuel + 1, i, j =>
    if i < j then
      if f ((i + j) / 2) then searchLoop f fuel i ((i + j) / 2)
      else searchLoop f fuel ((i + j) / 2 + 1) j
    else i

def sortSearch (n : Nat) (f : Nat → Bool) : Nat := searchLoop f n 0 n

theorem searchLoop_spec (f : Nat → Bool) (n : Nat)
    (mono : ∀ a b, a ≤ b → b < n → f a = true → f b = true) :
    ∀ fuel i j, j - i ≤ fuel → i ≤ j → j ≤ n →
      (∀ k, k < i → f k = false) →
      (∀ k, j ≤ k → k < n → f k = true) →
      i ≤ searchLoop f fuel i j ∧ searchLoop f fuel i j ≤ j ∧
      (∀ k, k < searchLoop f fuel i j → f k = false) ∧
      (∀ k, searchLoop f fuel i j ≤ k → k < n → f k = true) := by
  intro fuel
  induction fuel with
  | zero =>
    intro i j hfuel hij hjn hlow hhigh
    have : j ≤ i := by omega
    have hij' : i = j := le_antisymm hij this
    subst hij'
    exact ⟨Nat.le_refl _, Nat.le_refl _, hlow, hhigh⟩
  | succ fuel ih =>
    intro i j hfuel hij hjn hlow hhigh
    by_cases hlt : i < j
    · have hm1 : i ≤ (i + j) / 2 := by omega
      have hm2 : (i + j) / 2 < j := by omega
      rw [searchLoop, if_pos hlt]
      by_cases hfm : f ((i + j) / 2) = true
      · rw [if_pos hfm]
        have hhigh' : ∀ k, (i + j) / 2 ≤ k → k < n → f k = true := by
          intro k hk hkn
          exact mono _ _ hk hkn hfm
        obtain ⟨a1, a2, a3, a4⟩ := ih i ((i + j) / 2) (by omega) hm1 (by omega) hlow hhigh'
        exact ⟨a1, by omega, a3, a4⟩
      · rw [if_neg hfm]
        have hfm' : f ((i + j) / 2) = false := by
          cases h : f ((i + j) / 2) with
          | true => exact absurd h hfm
          | false => rfl
        have hlow' : ∀ k, k < (i + j) / 2 + 1 → f k = false := by
          intro k hk
          cases h : f k with
          | false => rfl
          | true =>
            have : f ((i + j) / 2) = true := mono k _ (by omega) (by omega) h
            rw [this] at hfm'
            exact absurd hfm' (by simp)
        have := ih ((i + j) / 2 + 1) j (by omega) (by omega) hjn hlow' hhigh
        exact ⟨by omega, this.2.1, this.2.2.1, this.2.2.2⟩
    · rw [searchLoop, if_neg hlt]
      have hij' : i = j := by omega
      subst hij'
      exact ⟨Nat.le_refl _, Nat.le_refl _, hlow, hhigh⟩

/-- For a predicate monotone below `n`, `sortSearch n f` is the least index at
which `f` holds (or `n` when there is none): everything below the result is
`false`, everything from the result up to `n` is `true`. -/
theorem sortSearch_spec (f : Nat → Bool) (n : Nat)
    (mono : ∀ a b, a ≤ b → b < n → f a = true → f b = true) :
    sortSearch n f ≤ n ∧
    (∀ k, k < sortSearch n f → f k = false) ∧
    (∀ k, sortSearch n f ≤ k → k < n → f k = true) := by
  have := searchLoop_spec f n mono n 0 n (by omega) (by omega) (by omega)
    (by intro k hk; omega) (by intro k hk hkn; omega)
  exact ⟨this.2.1, this.2.2.1, this.2.2.2⟩

/-! ## Fork registry (src/forkmanager/fork.go) -/

/-- src/forkmanager: `type Fork struct { Name ForkName; FromBlockNumber uint64 }`. -/
structure Fork where
  name : String
  fromBlockNumber : Nat
deriving DecidableEq, Repr

/-- src/forkmanager: `type ForkHandler struct { FromBlockNumber uint64; Handler interface{} }`.
The handler is an opaque `interface{}` value in Go; we model the opaque
payload as a `Nat` identifier. -/
structure ForkHandler where
  fromBlockNumber : Nat
  handler : Nat
deriving DecidableEq, Repr

def defaultFork : Fork := ⟨"", 0⟩

def defaultForkHandler : ForkHandler := ⟨0, 0⟩

/-- Go map embedded as an association list: first-match lookup. -/
def mapLookup {β : Type} : List (String × β) → String → Option β
  | [], _ => none
  | (k', v') :: rest, k => if k' = k then some v' else mapLookup rest k

/-- Go map insertion: replace the existing binding or append a new one. -/
def mapInsert {β : Type} : List (String × β) → String → β → List (String × β)
  | [], k, v => [(k, v)]
  | (k', v') :: rest, k, v =>
    if k' = k then (k, v) :: rest else (k', v') :: mapInsert rest k v

/-- src/forkmanager: the `forkManager` struct (the mutex is irrelevant in the
sequential embedding). -/
structure ForkManager where
  forkMap : List (String × Fork)
  forks : List Fork
  handlersMap : List (String × List ForkHandler)
deriving DecidableEq, Repr

/-- src/forkmanager `GetInstance`: the freshly initialized singleton, holding
only the base fork `"basev1"` active from height 0. -/
def getInstance : ForkManager :=
  { forkMap := [("basev1", ⟨"basev1", 0⟩)]
    forks := [⟨"basev1", 0⟩]
    handlersMap := [] }

/-- src/forkmanager `forkManager.RegisterFork`: record the fork in the map and
insert it into the height-sorted slice at the index found by `sort.Search`
with predicate `forks[i].FromBlockNumber >= fromBlock`. -/
def ForkManager.RegisterFork (fm : ForkManager) (name : String) (fromBlock : Nat) :
    ForkManager :=
  let fork : Fork := ⟨name, fromBlock⟩
  let forkMap' := mapInsert fm.forkMap name fork
  let forks' :=
    if fm.forks.isEmpty then [fork]
    else
      let index := sortSearch fm.forks.length
        (fun i => decide (fromBlock ≤ (fm.forks.getD i defaultFork).fromBlockNumber))
      fm.forks.take index ++ fork :: fm.forks.drop index
  { fm with forkMap := forkMap', forks := forks' }

/-- src/forkmanager `forkManager.RegisterHandler`: fails with a returned error
when the fork name is unknown; otherwise inserts the handler into the
capability's table at the `sort.Search` index (predicate
`handlers[i].FromBlockNumber >= fork.FromBlockNumber`). -/
def ForkManager.RegisterHandler (fm : ForkManager) (forkName handlerName : String)
    (handler : Nat) : Res ForkManager :=
  match mapLookup fm.forkMap forkName with
  | none => .error (.err ("fork does not exist: " ++ forkName))
  | some fork =>
    match mapLookup fm.handlersMap handlerName with
    | none =>
      .ok { fm with handlersMap :=
              mapInsert fm.handlersMap handlerName [⟨fork.fromBlockNumber, handler⟩] }
    | some handlers =>
      let index := sortSearch handlers.length
        (fun i => decide (fork.fromBlockNumber ≤
          (handlers.getD i defaultForkHandler).fromBlockNumber))
      let handlers' := handlers.take index ++
        ⟨fork.fromBlockNumber, handler⟩ :: handlers.drop index
      .ok { fm with handlersMap := mapInsert fm.handlersMap handlerName handlers' }

/-- src/forkmanager `forkManager.GetHandler`: panics when the capability has no
table at all; otherwise `pos := sort.Search(len, blockNumber < h[i].From) - 1`
and `handlers[pos]` is returned — when the search yields 0 the Go index is
`-1` and the access is a runtime index-out-of-range fault. -/
def ForkManager.GetHandler (fm : ForkManager) (name : String) (blockNumber : Nat) :
    Res Nat :=
  match mapLookup fm.handlersMap name with
  | none => .error (.fatal ("handlers not registered for " ++ name))
  | some handlers =>
    let pos := sortSearch handlers.length
      (fun i => decide (blockNumber < (handlers.getD i defaultForkHandler).fromBlockNumber))
    if pos = 0 then .error (.fatal "runtime error: index out of range")
    else .ok ((handlers.getD (pos - 1) defaultForkHandler).handler)

/-- Ascending (non-strict) order of a handler table by activation height. -/
abbrev handlersSorted (hs : List ForkHandler) : Prop :=
  List.Pairwise (fun a b => a.fromBlockNumber ≤ b.fromBlockNumber) hs

/-- Ascending (non-strict) order of the fork slice by activation height. -/
abbrev forksSorted (fs : List Fork) : Prop :=
  List.Pairwise (fun a b => a.fromBlockNumber ≤ b.fromBlockNumber) fs

theorem pairwise_insert_middle {α : Type} {R : α → α → Prop} {l1 l2 : List α} {x : α}
    (h : List.Pairwise R (l1 ++ l2)) (h1 : ∀ a ∈ l1, R a x) (h2 : ∀ b ∈ l2, R x b) :
    List.Pairwise R (l1 ++ x :: l2) := by
  rw [List.pairwise_append] at h ⊢
  obtain ⟨p1, p2, p12⟩ := h
  refine ⟨p1, ?_, ?_⟩
  · rw [List.pairwise_cons]
    exact ⟨h2, p2⟩
  · intro a ha b hb
    rcases List.mem_cons.mp hb with hb | hb
    · exact hb ▸ h1 a ha
    · exact p12 a ha b hb

/-- Inserting at the index found by Go's `sort.Search` with predicate
`height(l[i]) ≥ height(x)` into a height-sorted list: the index is the first
position whose height is ≥ the new height, so the new element lands strictly
after every smaller height and (in particular) BEFORE every entry of equal
height; sortedness is preserved. -/
theorem sortSearch_insert_spec {α : Type} (hf : α → Nat) (d : α) (l : List α) (x : α)
    (hs : List.Pairwise (fun a b => hf a ≤ hf b) l) :
    ∀ idx, idx = sortSearch l.length (fun i => decide (hf x ≤ hf (l.getD i d))) →
      idx ≤ l.length ∧
      (∀ a ∈ l.take idx, hf a < hf x) ∧
      (∀ b ∈ l.drop idx, hf x ≤ hf b) ∧
      List.Pairwise (fun a b => hf a ≤ hf b) (l.take idx ++ x :: l.drop idx) := by
  intro idx hidx
  have hmono : ∀ a b, a ≤ b → b < l.length →
      (fun i => decide (hf x ≤ hf (l.getD i d))) a = true →
      (fun i => decide (hf x ≤ hf (l.getD i d))) b = true := by
    intro a b hab hb hpa
    simp only [decide_eq_true_eq] at hpa ⊢
    have ha : a < l.length := lt_of_le_of_lt hab hb
    rcases Nat.eq_or_lt_of_le hab with heq | hlt
    · exact heq ▸ hpa
    · have := (List.pairwise_iff_getElem.mp hs) a b ha hb hlt
      rw [List.getD_eq_getElem l d ha, List.getD_eq_getElem l d hb] at *
      exact le_trans hpa this
  obtain ⟨hle, hlow, hhigh⟩ := sortSearch_spec _ l.length hmono
  rw [← hidx] at hle hlow hhigh
  have htake : ∀ a ∈ l.take idx, hf a < hf x := by
    intro a ha
    obtain ⟨i, hm, hi⟩ := List.mem_take_iff_getElem.mp ha
    have hik : i < idx := lt_of_lt_of_le hm inf_le_left
    have hil : i < l.length := lt_of_lt_of_le hm inf_le_right
    have hp := hlow i hik
    simp only [decide_eq_false_iff_not] at hp
    rw [List.getD_eq_getElem l d hil, hi] at hp
    exact Nat.lt_of_not_le hp
  have hdrop : ∀ b ∈ l.drop idx, hf x ≤ hf b := by
    intro b hb
    obtain ⟨j, hj, hjb⟩ := List.mem_iff_getElem.mp hb
    have hjl : idx + j < l.length := by
      have := List.length_drop idx l
      omega
    have hp := hhigh (idx + j) (Nat.le_add_right _ _) hjl
    simp only [decide_eq_true_eq] at hp
    rw [List.getD_eq_getElem l d hjl] at hp
    rw [List.getElem_drop] at hjb
    exact hjb ▸ hp
  refine ⟨hle, htake, hdrop, ?_⟩
  refine pairwise_insert_middle ?_ ?_ hdrop
  · rw [List.take_append_drop]
    exact hs
  · intro a ha
    exact Nat.le_of_lt (htake a ha)

theorem mapLookup_mapInsert {β : Type} (m : List (String × β)) (k : String) (v : β) :
    mapLookup (mapInsert m k v) k = some v := by
  induction m with
  | nil => simp [mapInsert, mapLookup]
  | cons p rest ih =>
    obtain ⟨k', v'⟩ := p
    by_cases h : k' = k
    · simp [mapInsert, h, mapLookup]
    · simp [mapInsert, h, mapLookup, ih]

/-- Claim C3 counterexample: registering fork `"x"` at height 50 and then fork
`"y"` at the same height 50 places the LATER registration `"y"` before the
earlier `"x"` in the ordered fork slice (insertion happens at the first index
whose height is ≥ the new height), contradicting the claimed tie-break
"later registrations sort after earlier ones". -/
theorem c3_tie_order_counterexample :
    ((getInstance.RegisterFork "x" 50).RegisterFork "y" 50).forks =
      [⟨"basev1", 0⟩, ⟨"y", 50⟩, ⟨"x", 50⟩] ∧
    ((getInstance.RegisterFork "x" 50).RegisterFork "y" 50).forks ≠
      [⟨"basev1", 0⟩, ⟨"x", 50⟩, ⟨"y", 50⟩] := by
  decide

/-- Claim C3 (amended): `RegisterFork` and `RegisterHandler` keep their tables
sorted ascending by activation height, inserting the new entry at the FIRST
index whose height is ≥ the new height; hence when two registrations carry the
same height, the later registration is placed BEFORE the earlier one (tie
broken by reverse insertion order), not after it. -/
theorem c3_register_keeps_sorted :
    (∀ (fm : ForkManager) (name : String) (fromBlock : Nat),
      forksSorted fm.forks →
      ∃ idx, idx ≤ fm.forks.length ∧
        (fm.RegisterFork name fromBlock).forks =
          fm.forks.take idx ++ (⟨name, fromBlock⟩ : Fork) :: fm.forks.drop idx ∧
        forksSorted ((fm.RegisterFork name fromBlock).forks) ∧
        (∀ a ∈ fm.forks.take idx, a.fromBlockNumber < fromBlock) ∧
        (∀ b ∈ fm.forks.drop idx, fromBlock ≤ b.fromBlockNumber)) ∧
    (∀ (fm : ForkManager) (forkName handlerName : String) (handler : Nat)
        (fork : Fork) (handlers : List ForkHandler),
      mapLookup fm.forkMap forkName = some fork →
      mapLookup fm.handlersMap handlerName = some handlers →
      handlersSorted handlers →
      ∃ idx, idx ≤ handlers.length ∧
        (∃ fm', fm.RegisterHandler forkName handlerName handler = .ok fm' ∧
          mapLookup fm'.handlersMap handlerName =
            some (handlers.take idx ++
              (⟨fork.fromBlockNumber, handler⟩ : ForkHandler) :: handlers.drop idx)) ∧
        handlersSorted (handlers.take idx ++
          (⟨fork.fromBlockNumber, handler⟩ : ForkHandler) :: handlers.drop idx) ∧
        (∀ a ∈ handlers.take idx, a.fromBlockNumber < fork.fromBlockNumber) ∧
        (∀ b ∈ handlers.drop idx, fork.fromBlockNumber ≤ b.fromBlockNumber)) := by
  constructor
  · intro fm name fromBlock hsort
    by_cases he : fm.forks.isEmpty
    · have hnil : fm.forks = [] := by
        cases h : fm.forks with
        | nil => rfl
        | cons a l => rw [h] at he; simp [List.isEmpty] at he
      refine ⟨0, Nat.zero_le _, ?_, ?_, ?_, ?_⟩
      · simp [ForkManager.RegisterFork, he, hnil]
      · simp [ForkManager.RegisterFork, he, hnil]
      · simp [hnil]
      · simp [hnil]
    · obtain ⟨hle, htake, hdrop, hpw⟩ :=
        sortSearch_insert_spec (fun f => f.fromBlockNumber) defaultFork fm.forks
          ⟨name, fromBlock⟩ hsort _ rfl
      have hforks : (fm.RegisterFork name fromBlock).forks =
          fm.forks.take (sortSearch fm.forks.length
            (fun i => decide (fromBlock ≤ (fm.forks.getD i defaultFork).fromBlockNumber))) ++
          (⟨name, fromBlock⟩ : Fork) :: fm.forks.drop (sortSearch fm.forks.length
            (fun i => decide (fromBlock ≤ (fm.forks.getD i defaultFork).fromBlockNumber))) := by
        simp [ForkManager.RegisterFork, he]
      exact ⟨_, hle, hforks, hforks ▸ hpw, htake, hdrop⟩
  · intro fm forkName handlerName handler fork handlers hfk hhm hsort
    obtain ⟨hle, htake, hdrop, hpw⟩ :=
      sortSearch_insert_spec (fun h => h.fromBlockNumber) defaultForkHandler handlers
        ⟨fork.fromBlockNumber, handler⟩ hsort _ rfl
    have hreg : fm.RegisterHandler forkName handlerName handler =
        .ok { fm with handlersMap := (mapInsert fm.handlersMap handlerName
          (handlers.take (sortSearch handlers.length
              (fun i => decide (fork.fromBlockNumber ≤
                (handlers.getD i defaultForkHandler).fromBlockNumber))) ++
            (⟨fork.fromBlockNumber, handler⟩ : ForkHandler) :: handlers.drop
              (sortSearch handlers.length
              (fun i => decide (fork.fromBlockNumber ≤
                (handlers.getD i defaultForkHandler).fromBlockNumber))))) } := by
      simp [ForkManager.RegisterHandler, hfk, hhm]
    exact ⟨_, hle, ⟨_, hreg, mapLookup_mapInsert _ _ _⟩, hpw, htake, hdrop⟩

/-- Claim C3 witness: the amended statement applied to the freshly
initialized manager. -/
theorem c3_register_keeps_sorted_witness :
    (∃ idx, idx ≤ getInstance.forks.length ∧
      (getInstance.RegisterFork "nf" 50).forks =
        getInstance.forks.take idx ++ (⟨"nf", 50⟩ : Fork) :: getInstance.forks.drop idx ∧
      forksSorted ((getInstance.RegisterFork "nf" 50).forks) ∧
      (∀ a ∈ getInstance.forks.take idx, a.fromBlockNumber < 50) ∧
      (∀ b ∈ getInstance.forks.drop idx, 50 ≤ b.fromBlockNumber)) := by
  exact c3_register_keeps_sorted.1 getInstance "nf" 50 (by decide)

/-- The §8 fork-ordering scenario: the base fork plus forks `"A"`@100,
`"B"`@50, `"C"`@200, with a handler for capability `"extra"` registered
against each fork (handler ids 1, 2, 3, 4 respectively). -/
def demoFM : Res ForkManager := do
  let fm := getInstance
  let fm := fm.RegisterFork "A" 100
  let fm := fm.RegisterFork "B" 50
  let fm := fm.RegisterFork "C" 200
  let fm ← fm.RegisterHandler "basev1" "extra" 1
  let fm ← fm.RegisterHandler "A" "extra" 2
  let fm ← fm.RegisterHandler "B" "extra" 3
  let fm ← fm.RegisterHandler "C" "extra" 4
  return fm

/-- A small concrete manager whose `"extra"` table holds handlers at heights
0 and 50, used to instantiate the general lookup invariant. -/
def fmW : ForkManager :=
  { forkMap := [("basev1", ⟨"basev1", 0⟩)]
    forks := [⟨"basev1", 0⟩]
    handlersMap := [("extra", [⟨0, 1⟩, ⟨50, 3⟩])] }

/-- Claim C2: with handlers for `"extra"` registered against forks at heights
0 (base, id 1), 100 (id 2), 50 (id 3) and 200 (id 4), `GetHandler` returns
id 3 (the height-50 handler) at query height 75, id 1 (base) at height 0 and
id 4 (height 200) at height 250; and in general, on any sorted handler table
whose first activation height is ≤ the query height, `GetHandler` returns the
handler of the latest entry whose activation height is ≤ the query height
(every later entry activates strictly above the query height). -/
theorem c2_get_handler_latest_fork :
    (demoFM.map (fun fm =>
      (fm.GetHandler "extra" 75, fm.GetHandler "extra" 0, fm.GetHandler "extra" 250)) =
      .ok (.ok 3, .ok 1, .ok 4)) ∧
    (∀ (fm : ForkManager) (name : String) (handlers : List ForkHandler) (h : Nat),
      mapLookup fm.handlersMap name = some handlers →
      handlersSorted handlers →
      handlers ≠ [] →
      (handlers.getD 0 defaultForkHandler).fromBlockNumber ≤ h →
      ∃ i, i < handlers.length ∧
        fm.GetHandler name h = .ok ((handlers.getD i defaultForkHandler).handler) ∧
        (handlers.getD i defaultForkHandler).fromBlockNumber ≤ h ∧
        (∀ j, i < j → j < handlers.length →
          h < (handlers.getD j defaultForkHandler).fromBlockNumber)) := by
  constructor
  · decide
  · intro fm name handlers h hmap hsort hne hbase
    have hlen : 0 < handlers.length := List.length_pos.mpr hne
    have hmono : ∀ a b, a ≤ b → b < handlers.length →
        (fun i => decide (h < (handlers.getD i defaultForkHandler).fromBlockNumber)) a
          = true →
        (fun i => decide (h < (handlers.getD i defaultForkHandler).fromBlockNumber)) b
          = true := by
      intro a b hab hb hpa
      simp only [decide_eq_true_eq] at hpa ⊢
      have ha : a < handlers.length := lt_of_le_of_lt hab hb
      rcases Nat.eq_or_lt_of_le hab with heq | hlt
      · exact heq ▸ hpa
      · have hrel := (List.pairwise_iff_getElem.mp hsort) a b ha hb hlt
        rw [List.getD_eq_getElem _ _ ha, List.getD_eq_getElem _ _ hb] at *
        omega
    obtain ⟨hle, hlow, hhigh⟩ := sortSearch_spec _ handlers.length hmono
    set r := sortSearch handlers.length
      (fun i => decide (h < (handlers.getD i defaultForkHandler).fromBlockNumber)) with hr
    have hr0 : r ≠ 0 := by
      intro h0
      have := hhigh 0 (by omega) hlen
      simp only [decide_eq_true_eq] at this
      omega
    refine ⟨r - 1, by omega, ?_, ?_, ?_⟩
    · simp only [ForkManager.GetHandler, hmap]
      rw [← hr, if_neg hr0]
    · have hp := hlow (r - 1) (by omega)
      simp only [decide_eq_false_iff_not] at hp
      omega
    · intro j hij hjl
      have hp := hhigh j (by omega) hjl
      simp only [decide_eq_true_eq] at hp
      exact hp

/-- Claim C2 witness: the general lookup invariant applied to the concrete
manager `fmW` at query height 60 (the returned handler is the height-50 one). -/
theorem c2_get_handler_latest_fork_witness :
    ∃ i, i < ([⟨0, 1⟩, ⟨50, 3⟩] : List ForkHandler).length ∧
      fmW.GetHandler "extra" 60 =
        .ok ((([⟨0, 1⟩, ⟨50, 3⟩] : List ForkHandler).getD i defaultForkHandler).handler) ∧
      (([⟨0, 1⟩, ⟨50, 3⟩] : List ForkHandler).getD i defaultForkHandler).fromBlockNumber
        ≤ 60 ∧
      (∀ j, i < j → j < ([⟨0, 1⟩, ⟨50, 3⟩] : List ForkHandler).length →
        60 < (([⟨0, 1⟩, ⟨50, 3⟩] : List ForkHandler).getD j
          defaultForkHandler).fromBlockNumber) :=
  c2_get_handler_latest_fork.2 fmW "extra" [⟨0, 1⟩, ⟨50, 3⟩] 60
    (by decide) (by decide) (by decide) (by decide)

/-- Claim C4: `GetHandler` on a capability with no registrations is a fatal
fault (a Go `panic`, modelled as `Fault.fatal`), not a returned value; while
`RegisterHandler` with an unknown fork name returns an ordinary recoverable
error (`Fault.err`). -/
theorem c4_fatal_vs_recoverable :
    (∀ (fm : ForkManager) (name : String) (blockNumber : Nat),
      mapLookup fm.handlersMap name = none →
      fm.GetHandler name blockNumber =
        .error (.fatal ("handlers not registered for " ++ name))) ∧
    (∀ (fm : ForkManager) (forkName handlerName : String) (handler : Nat),
      mapLookup fm.forkMap forkName = none →
      fm.RegisterHandler forkName handlerName handler =
        .error (.err ("fork does not exist: " ++ forkName))) := by
  constructor
  · intro fm name blockNumber hnone
    simp [ForkManager.GetHandler, hnone]
  · intro fm forkName handlerName handler hnone
    simp [ForkManager.RegisterHandler, hnone]

/-- Claim C4 witness: on the freshly initialized manager, `GetHandler` for the
never-registered capability `"extra"` panics, and `RegisterHandler` against
the unknown fork `"nope"` returns a recoverable error. -/
theorem c4_fatal_vs_recoverable_witness :
    getInstance.GetHandler "extra" 0 =
      .error (.fatal ("handlers not registered for " ++ "extra")) ∧
    getInstance.RegisterHandler "nope" "extra" 7 =
      .error (.err ("fork does not exist: " ++ "nope")) :=
  ⟨c4_fatal_vs_recoverable.1 getInstance "extra" 0 (by decide),
   c4_fatal_vs_recoverable.2 getInstance "nope" "extra" 7 (by decide)⟩

/-! ## fastrlp parse trees (library `github.com/umbracle/fastrlp`)

The codec in src/unnamed/part_000 decodes from pre-parsed fastrlp `*Value`
trees: an atom (`TypeBytes`, a raw byte string) or an array (`TypeArray`, an
ordered sequence of child values).  The accessor semantics embedded below are
the library's: `GetElems`/`Bytes` check the node kind, `GetHash`/`GetAddr`
check the exact width (32 / 20) before copying, `GetBytes` optionally checks
an exact width, `GetUint64`/`GetBigInt` read a big-endian unsigned integer.
All of them fail with ordinary returned errors, never a panic. -/

inductive RVal where
  | bytes (b : List Nat)
  | arr (vs : List RVal)

/-- Default value handed to `List.getD`; every use is guarded by a length
check so the default is never observed. -/
def rnil : RVal := .bytes []

/-- fastrlp `Value.Type() == fastrlp.TypeBytes`. -/
def RVal.isBytesType : RVal → Bool
  | .bytes _ => true
  | .arr _ => false

/-- fastrlp `Value.GetElems`. -/
def RVal.GetElems : RVal → Except String (List RVal)
  | .arr vs => .ok vs
  | .bytes _ => .error "not an array"

/-- fastrlp `Value.Bytes`. -/
def RVal.Bytes : RVal → Except String (List Nat)
  | .bytes b => .ok b
  | .arr _ => .error "not bytes"

/-- fastrlp `Value.GetHash(dst)`: requires a 32-byte atom, then Go-copies it
into the destination slice.  Every call site in src passes a full 32-byte
array slice (`field[:]`) — so the copy replaces the whole destination and the
checked bytes are returned here — EXCEPT `Header.UnmarshalRLPFrom`'s mix-hash
line, which passes the zero-length slice `h.MixHash[:0]`; that call site is
embedded separately (check performed, result discarded, field unchanged). -/
def RVal.GetHash32 : RVal → Except String (List Nat)
  | .bytes b =>
    if b.length = 32 then .ok b
    else .error ("bad length, expected 32 but found " ++ toString b.length)
  | .arr _ => .error "not bytes"

/-- fastrlp `Value.GetAddr(dst)`: a 20-byte atom copied into a full
20-byte array slice at every call site. -/
def RVal.GetAddr20 : RVal → Except String (List Nat)
  | .bytes b =>
    if b.length = 20 then .ok b
    else .error ("bad length, expected 20 but found " ++ toString b.length)
  | .arr _ => .error "not bytes"

/-- fastrlp `Value.GetBytes(dst, bits...)`: optionally checks an exact byte
width, then appends the atom's bytes onto `dst[:0]` and returns the result
(so the caller's field ends up holding exactly the atom's bytes). -/
def RVal.GetBytesBound (bound : Option Nat) : RVal → Except String (List Nat)
  | .bytes b =>
    match bound with
    | some n =>
      if b.length = n then .ok b
      else .error ("bad length, expected " ++ toString n ++ " but found " ++
        toString b.length)
    | none => .ok b
  | .arr _ => .error "not bytes"

/-- Big-endian value of a byte string. -/
def beVal (b : List Nat) : Nat := b.foldl (fun acc x => acc * 256 + x) 0

/-- fastrlp `Value.GetUint64`: a bytes atom of at most 8 bytes, read
big-endian. -/
def RVal.GetUint64 : RVal → Except String Nat
  | .bytes b =>
    if b.length ≤ 8 then .ok (beVal b)
    else .error "bytes too long for uint64"
  | .arr _ => .error "not bytes"

/-- fastrlp `Value.GetBigInt`: a bytes atom read as an arbitrary-precision
big-endian unsigned integer. -/
def RVal.GetBigInt : RVal → Except String Nat
  | .bytes b => .ok (beVal b)
  | .arr _ => .error "not bytes"

/-- fastrlp `Value.GetString`: the atom's bytes as a string; we keep the raw
bytes. -/
def RVal.GetString : RVal → Except String (List Nat)
  | .bytes b => .ok b
  | .arr _ => .error "not bytes"

/-- Minimal big-endian bytes of `n` (empty for zero), as used by the canonical
integer encoding (§3).  The fuel of 16 covers any length arising here (all
integers are 64-bit). -/
def beBytesAux : Nat → Nat → List Nat
  | 0, _ => []
  | fuel + 1, n => if n = 0 then [] else beBytesAux fuel (n / 256) ++ [n % 256]

def beBytes (n : Nat) : List Nat := beBytesAux 16 n

/-- The 8-byte big-endian representation of a 64-bit nonce (the header nonce
is carried as 8 raw bytes, §3). -/
def be8 (n : Nat) : List Nat :=
  [n / 2 ^ 56 % 256, n / 2 ^ 48 % 256, n / 2 ^ 40 % 256, n / 2 ^ 32 % 256,
   n / 2 ^ 24 % 256, n / 2 ^ 16 % 256, n / 2 ^ 8 % 256, n % 256]

mutual
/-- Canonical byte serialization of an element tree (§4.1): a single byte
below 128 encodes as itself; short atoms get a `0x80 + len` prefix; long
atoms a `0xb7 + lenlen` prefix followed by the big-endian length; lists use
the same two-tier scheme at `0xc0`/`0xf7` over the concatenated payload. -/
def encodeRVal : RVal → List Nat
  | .bytes b =>
    if b.length = 1 ∧ b.headD 0 < 128 then b
    else if b.length ≤ 55 then (128 + b.length) :: b
    else (183 + (beBytes b.length).length) :: (beBytes b.length ++ b)
  | .arr vs =>
    if (encodeRList vs).length ≤ 55 then
      (192 + (encodeRList vs).length) :: encodeRList vs
    else
      (247 + (beBytes (encodeRList vs).length).length) ::
        (beBytes (encodeRList vs).length ++ encodeRList vs)

/-- Concatenated canonical serialization of a list of elements. -/
def encodeRList : List RVal → List Nat
  | [] => []
  | v :: vs => encodeRVal v ++ encodeRList vs
end

/-! ## Chain object types (package `types`)

The struct declarations live outside src/; the fields below are the ones the
src/ decoders populate, with Go zero values as defaults (fixed-size arrays
are zero-filled lists of the right width). -/

structure Header where
  parentHash : List Nat := List.replicate 32 0
  sha3Uncles : List Nat := List.replicate 32 0
  miner : List Nat := List.replicate 20 0
  stateRoot : List Nat := List.replicate 32 0
  txRoot : List Nat := List.replicate 32 0
  receiptsRoot : List Nat := List.replicate 32 0
  logsBloom : List Nat := List.replicate 256 0
  difficulty : Nat := 0
  number : Nat := 0
  gasLimit : Nat := 0
  gasUsed : Nat := 0
  timestamp : Nat := 0
  extraData : List Nat := []
  mixHash : List Nat := List.replicate 32 0
  nonce : Nat := 0
  hash : List Nat := []
deriving DecidableEq, Repr

/-- A fresh `&Header{}` (all fields at their Go zero value). -/
def emptyHeader : Header := {}

/-- Modelled from the spec: the transaction type tag is a single byte; the
typed "state" transaction is tagged `0x02` (§8 stream example), the legacy
transaction carries no tag.  `ToTransactionType` (declared outside src/)
resolves a tag byte and fails on an unknown one (§7). -/
def TxTypeLegacy : Nat := 0

def TxTypeState : Nat := 2

def ToTransactionType (b : Nat) : Except String Nat :=
  if b = TxTypeState then .ok TxTypeState
  else .error ("unknown transaction type: " ++ toString b)

/-- src `TransactionType.UnmarshalRLPFrom`: a 1-byte atom resolved through
`ToTransactionType`. -/
def TransactionType.UnmarshalRLPFrom (v : RVal) : Except String Nat :=
  match v.Bytes with
  | .error f => .error f
  | .ok bytes =>
    if bytes.length ≠ 1 then
      .error ("expected 1 byte transaction type, but size is " ++
        toString bytes.length)
    else ToTransactionType (bytes.headD 0)

structure LegacyTransaction where
  nonce : Nat := 0
  gasPrice : Nat := 0
  gas : Nat := 0
  toAddr : Option (List Nat) := none
  value : Nat := 0
  input : List Nat := []
  v : Nat := 0
  r : Nat := 0
  s : Nat := 0
deriving DecidableEq, Repr

structure StateTransaction where
  nonce : Nat := 0
  toAddr : Option (List Nat) := none
  input : List Nat := []
  signatures : List (List Nat) := []
  v : Nat := 0
  r : Nat := 0
  s : Nat := 0
deriving DecidableEq, Repr

inductive TxPayload where
  | legacy (t : LegacyTransaction)
  | state (t : StateTransaction)
deriving DecidableEq, Repr

/-- A decoded transaction: the type tag together with the payload variant
(the cached transaction hash recomputed by `txn.ComputeHash()` depends on the
encoder, which lives outside src/, and is not part of any claim here). -/
structure Transaction where
  ttype : Nat
  payload : TxPayload
deriving DecidableEq, Repr

/-- src `LegacyTransaction.UnmarshalRLPFrom`: exactly 9 elements; the
recipient is present only when field 3 is exactly 20 bytes (`v.Get(3).Bytes()`
with the error discarded — a list value gives the nil slice). -/
def LegacyTransaction.UnmarshalRLPFrom (v : RVal) : Except String LegacyTransaction :=
  match v.GetElems with
  | .error f => .error f
  | .ok elems =>
    if elems.length ≠ 9 then
      .error ("not enough elements to decode transaction, expected 9 but found "
        ++ toString elems.length)
    else do
      let nonce ← (elems.getD 0 rnil).GetUint64
      let gasPrice ← (elems.getD 1 rnil).GetBigInt
      let gas ← (elems.getD 2 rnil).GetUint64
      let toAddr : Option (List Nat) :=
        match (elems.getD 3 rnil).Bytes with
        | .ok vv => if vv.length = 20 then some vv else none
        | .error _ => none
      let value ← (elems.getD 4 rnil).GetBigInt
      let inp ← RVal.GetBytesBound none (elems.getD 5 rnil)
      let sigV ← (elems.getD 6 rnil).GetBigInt
      let sigR ← (elems.getD 7 rnil).GetBigInt
      let sigS ← (elems.getD 8 rnil).GetBigInt
      pure {
        nonce := nonce, gasPrice := gasPrice, gas := gas, toAddr := toAddr,
        value := value, input := inp, v := sigV, r := sigR, s := sigS }

/-- src `StateTransaction.UnmarshalRLPFrom`: exactly 7 elements; field 3 is a
list of raw signature byte strings. -/
def StateTransaction.UnmarshalRLPFrom (v : RVal) : Except String StateTransaction :=
  match v.GetElems with
  | .error f => .error f
  | .ok elems =>
    if elems.length ≠ 7 then
      .error ("not enough elements to decode transaction, expected 7 but found "
        ++ toString elems.length)
    else do
      let nonce ← (elems.getD 0 rnil).GetUint64
      let toAddr : Option (List Nat) :=
        match (elems.getD 1 rnil).Bytes with
        | .ok vv => if vv.length = 20 then some vv else none
        | .error _ => none
      let inp ← RVal.GetBytesBound none (elems.getD 2 rnil)
      let sigElems ← (elems.getD 3 rnil).GetElems
      let signatures ← sigElems.mapM (RVal.GetBytesBound none)
      let sigV ← (elems.getD 4 rnil).GetBigInt
      let sigR ← (elems.getD 5 rnil).GetBigInt
      let sigS ← (elems.getD 6 rnil).GetBigInt
      pure {
        nonce := nonce, toAddr := toAddr, input := inp, signatures := signatures,
        v := sigV, r := sigR, s := sigS }

/-- Modelled from the spec: `newTxPayload` (declared outside src/) allocates
the payload variant for a transaction type — legacy or typed "state" — and
fails on an unknown type; the src decoders then call the payload's
`UnmarshalRLPFrom`.  This function fuses allocation and decode. -/
def txPayloadUnmarshal (txType : Nat) (v : RVal) : Except String TxPayload :=
  if txType = TxTypeLegacy then
    match LegacyTransaction.UnmarshalRLPFrom v with
    | .error f => .error f
    | .ok t => .ok (.legacy t)
  else if txType = TxTypeState then
    match StateTransaction.UnmarshalRLPFrom v with
    | .error f => .error f
    | .ok t => .ok (.state t)
  else .error ("unknown transaction type: " ++ toString txType)

/-- src `Transactions.UnmarshalRLPFrom` scan loop: when `txns[i]` is a bytes
atom the type tag is parsed and `i` incremented, and `txns[i]` — the next
element — is then accessed with no bounds check (a runtime index-out-of-range
fault when that atom was the last element); a list element is decoded in
place as a legacy transaction. -/
def txsLoop : List RVal → Res (List Transaction)
  | [] => .ok []
  | e :: rest =>
    if e.isBytesType then
      match TransactionType.UnmarshalRLPFrom e with
      | .error msg => .error (.err msg)
      | .ok t =>
        match rest with
        | [] => .error (.fatal "runtime error: index out of range")
        | e2 :: rest2 =>
          match txPayloadUnmarshal t e2 with
          | .error msg => .error (.err msg)
          | .ok p =>
            match txsLoop rest2 with
            | .error f => .error f
            | .ok txs => .ok (⟨t, p⟩ :: txs)
    else
      match txPayloadUnmarshal TxTypeLegacy e with
      | .error msg => .error (.err msg)
      | .ok p =>
        match txsLoop rest with
        | .error f => .error f
        | .ok txs => .ok (⟨TxTypeLegacy, p⟩ :: txs)

def Transactions.UnmarshalRLPFrom (v : RVal) : Res (List Transaction) :=
  match v.GetElems with
  | .error msg => .error (.err msg)
  | .ok txns => txsLoop txns

structure Log where
  address : List Nat := List.replicate 20 0
  topics : List (List Nat) := []
  data : List Nat := []
deriving DecidableEq, Repr

/-- src `Log.UnmarshalRLPFrom`: exactly 3 elements (note the arity error is
the bare string `"bad elems"`). -/
def Log.UnmarshalRLPFrom (v : RVal) : Except String Log :=
  match v.GetElems with
  | .error f => .error f
  | .ok elems =>
    if elems.length ≠ 3 then
      .error "bad elems"
    else do
      let addr ← (elems.getD 0 rnil).GetAddr20
      let topicElems ← (elems.getD 1 rnil).GetElems
      let topics ← topicElems.mapM RVal.GetHash32
      let data ← RVal.GetBytesBound none (elems.getD 2 rnil)
      pure { address := addr, topics := topics, data := data }

/-- The receipt struct populated by the src decoder; `status` models the Go
pointer `Status *ReceiptStatus` (`SetStatus` makes it point at a value),
`transactionType` the leading tag. -/
structure Receipt where
  root : List Nat := List.replicate 32 0
  status : Option Nat := none
  cumulativeGasUsed : Nat := 0
  logsBloom : List Nat := List.replicate 256 0
  logs : List Log := []
  transactionType : Nat := 0
deriving DecidableEq, Repr

/-- src `Receipt.UnmarshalRLPFrom`: exactly 4 elements; the first field sets
the root when it is 32 bytes, the status byte when it is 1 byte, and
otherwise `SetStatus(0)` — any other width is an implicit zero status, not an
error. -/
def Receipt.UnmarshalRLPFrom (r : Receipt) (v : RVal) : Except String Receipt :=
  match v.GetElems with
  | .error f => .error f
  | .ok elems =>
    if elems.length ≠ 4 then
      .error "expected 4 elements"
    else do
      let buf ← (elems.getD 0 rnil).Bytes
      let r1 : Receipt :=
        if buf.length = 32 then { r with root := buf }
        else if buf.length = 1 then { r with status := some (buf.headD 0) }
        else { r with status := some 0 }
      let gas ← (elems.getD 1 rnil).GetUint64
      let bloom ← RVal.GetBytesBound (some 256) (elems.getD 2 rnil)
      let logsElems ← (elems.getD 3 rnil).GetElems
      let logs ← logsElems.mapM Log.UnmarshalRLPFrom
      pure { r1 with
        cumulativeGasUsed := gas, logsBloom := bloom, logs := r1.logs ++ logs }

/-- src `Receipts.UnmarshalRLPFrom` scan loop — same shape as the transaction
loop, including the unchecked `elems[i]` access after a type-tag atom. -/
def receiptsLoop : List RVal → Res (List Receipt)
  | [] => .ok []
  | e :: rest =>
    if e.isBytesType then
      match TransactionType.UnmarshalRLPFrom e with
      | .error msg => .error (.err msg)
      | .ok t =>
        match rest with
        | [] => .error (.fatal "runtime error: index out of range")
        | e2 :: rest2 =>
          match Receipt.UnmarshalRLPFrom { transactionType := t } e2 with
          | .error msg => .error (.err msg)
          | .ok rr =>
            match receiptsLoop rest2 with
            | .error f => .error f
            | .ok rs => .ok (rr :: rs)
    else
      match Receipt.UnmarshalRLPFrom { transactionType := TxTypeLegacy } e with
      | .error msg => .error (.err msg)
      | .ok rr =>
        match receiptsLoop rest with
        | .error f => .error f
        | .ok rs => .ok (rr :: rs)

def Receipts.UnmarshalRLPFrom (v : RVal) : Res (List Receipt) :=
  match v.GetElems with
  | .error msg => .error (.err msg)
  | .ok elems => receiptsLoop elems

/-! ## Header decode, canonical header encode, cached hash -/

/-- Modelled from the spec: the canonical header encoder (`MarshalRLPWith`,
declared outside src/) produces the 15 atoms of §3 in field order — hashes,
miner and bloom as raw fixed-width atoms, the five integers as minimal
big-endian atoms, the extra data raw, and the nonce as its 8 raw bytes. -/
def Header.MarshalRLPWith (h : Header) : RVal :=
  .arr [.bytes h.parentHash, .bytes h.sha3Uncles, .bytes h.miner,
        .bytes h.stateRoot, .bytes h.txRoot, .bytes h.receiptsRoot,
        .bytes h.logsBloom, .bytes (beBytes h.difficulty), .bytes (beBytes h.number),
        .bytes (beBytes h.gasLimit), .bytes (beBytes h.gasUsed),
        .bytes (beBytes h.timestamp), .bytes h.extraData, .bytes h.mixHash,
        .bytes (be8 h.nonce)]

/-- Modelled from the spec: the hash cached by `ComputeHash` (declared outside
src/) is the hash of the header's canonical encoding (§3); the keccak
function itself is abstracted as the identity on the canonical encoded bytes
(an injective stand-in, which is all the claims use). -/
def headerHash (h : Header) : List Nat := encodeRVal h.MarshalRLPWith

def Header.ComputeHash (h : Header) : Header := { h with hash := headerHash h }

/-- src `Header.UnmarshalRLPFrom`, threading the Go receiver.  Field 13
reproduces the source's `elems[13].GetHash(h.MixHash[:0])`: the atom is still
required to be exactly 32 bytes, but the destination slice has length 0, so
Go's `copy` writes nothing and the receiver's mix hash stays whatever it was;
the checked bytes are discarded.  The final step recomputes the cached
hash (`h.ComputeHash()`). -/
def Header.UnmarshalRLPFrom (h : Header) (v : RVal) : Except String Header :=
  match v.GetElems with
  | .error f => .error f
  | .ok elems =>
    if elems.length ≠ 15 then
      .error ("not enough elements to decode header, expected 15 but found "
        ++ toString elems.length)
    else do
      let parentHash ← (elems.getD 0 rnil).GetHash32
      let sha3Uncles ← (elems.getD 1 rnil).GetHash32
      let miner ← (elems.getD 2 rnil).GetAddr20
      let stateRoot ← (elems.getD 3 rnil).GetHash32
      let txRoot ← (elems.getD 4 rnil).GetHash32
      let receiptsRoot ← (elems.getD 5 rnil).GetHash32
      let logsBloom ← RVal.GetBytesBound (some 256) (elems.getD 6 rnil)
      let difficulty ← (elems.getD 7 rnil).GetUint64
      let number ← (elems.getD 8 rnil).GetUint64
      let gasLimit ← (elems.getD 9 rnil).GetUint64
      let gasUsed ← (elems.getD 10 rnil).GetUint64
      let timestamp ← (elems.getD 11 rnil).GetUint64
      let extraData ← RVal.GetBytesBound none (elems.getD 12 rnil)
      let _mixHashChecked ← (elems.getD 13 rnil).GetHash32
      let nonce ← (elems.getD 14 rnil).GetUint64
      pure (Header.ComputeHash
        { h with
          parentHash := parentHash, sha3Uncles := sha3Uncles,
          miner := miner, stateRoot := stateRoot, txRoot := txRoot,
          receiptsRoot := receiptsRoot, logsBloom := logsBloom,
          difficulty := difficulty, number := number,
          gasLimit := gasLimit, gasUsed := gasUsed,
          timestamp := timestamp, extraData := extraData,
          nonce := nonce })

structure Block where
  header : Header
  transactions : List Transaction
  uncles : List Header
deriving DecidableEq, Repr

/-- src `Block.UnmarshalRLPFrom`: exactly 3 elements — a header decoded into a
fresh `&Header{}`, the transaction stream, and the uncle headers. -/
def Block.UnmarshalRLPFrom (v : RVal) : Res Block :=
  match v.GetElems with
  | .error msg => .error (.err msg)
  | .ok elems =>
    if elems.length ≠ 3 then
      .error (.err ("not enough elements to decode block, expected 3 but found "
        ++ toString elems.length))
    else
      match Header.UnmarshalRLPFrom emptyHeader (elems.getD 0 rnil) with
      | .error msg => .error (.err msg)
      | .ok header =>
        match Transactions.UnmarshalRLPFrom (elems.getD 1 rnil) with
        | .error f => .error f
        | .ok txns =>
          match (elems.getD 2 rnil).GetElems with
          | .error msg => .error (.err msg)
          | .ok uncleElems =>
            match uncleElems.mapM (Header.UnmarshalRLPFrom emptyHeader) with
            | .error msg => .error (.err msg)
            | .ok uncles => .ok { header := header, transactions := txns, uncles := uncles }

/-! ## Claims about the chain object codec -/

/-- A concrete header with every field populated and a non-zero mix hash. -/
def h0 : Header :=
  { parentHash := List.replicate 32 1
    sha3Uncles := List.replicate 32 2
    miner := List.replicate 20 3
    stateRoot := List.replicate 32 4
    txRoot := List.replicate 32 5
    receiptsRoot := List.replicate 32 6
    logsBloom := List.replicate 256 7
    difficulty := 10
    number := 11
    gasLimit := 12
    gasUsed := 13
    timestamp := 14
    extraData := [21, 22]
    mixHash := 99 :: List.replicate 31 0
    nonce := 257
    hash := [] }

/-- What the src decoder actually produces from `encode(h0)`: every field of
`h0` except the mix hash, which stays at the receiver's zero value, plus the
recomputed cached hash. -/
def h0decoded : Header :=
  Header.ComputeHash { h0 with mixHash := List.replicate 32 0 }

/-- Claim C1 (code bug, src/unnamed/part_000 line 168): decoding the canonical
encoding of the header `h0` succeeds but does NOT restore the mix hash — the
source passes the zero-length destination slice `h.MixHash[:0]` to `GetHash`,
so the 32 checked bytes are never copied and the field keeps the receiver's
zero value (every sibling field passes the full slice `field[:]`).
Consequently the cached hash recomputed at the end of decode differs from the
hash of the canonical encoding of `h0`.  This contradicts the spec's §8
round-trip invariant on all fifteen fields. -/
theorem c1_mixhash_decode_bug :
    Header.UnmarshalRLPFrom emptyHeader h0.MarshalRLPWith = .ok h0decoded ∧
    h0decoded.mixHash ≠ h0.mixHash ∧
    h0decoded.mixHash = emptyHeader.mixHash ∧
    h0decoded.hash ≠ headerHash h0 := by
  decide

/-- Claim C5 counterexample: a `Log` with 2 top-level elements fails with the
constant message `"bad elems"`, which does not name the expected count 3
(it contains no digit at all). -/
theorem c5_log_arity_counterexample :
    Log.UnmarshalRLPFrom (.arr [rnil, rnil]) = .error "bad elems" ∧
    ¬ ('3' ∈ "bad elems".toList) := by
  decide

/-- Claim C5 (amended): every arity mismatch is rejected before any field is
read, and the error names the expected count — 15 for Header, 3 for Block,
9 for legacy Transaction, 7 for typed Transaction, 4 for Receipt — EXCEPT
`Log`, whose arity error is the constant string `"bad elems"` naming no
count. -/
theorem c5_arity_errors :
    (∀ (h : Header) (vs : List RVal), vs.length ≠ 15 →
      Header.UnmarshalRLPFrom h (.arr vs) =
        .error ("not enough elements to decode header, expected 15 but found "
          ++ toString vs.length)) ∧
    (∀ vs : List RVal, vs.length ≠ 3 →
      Block.UnmarshalRLPFrom (.arr vs) =
        .error (.err ("not enough elements to decode block, expected 3 but found "
          ++ toString vs.length))) ∧
    (∀ vs : List RVal, vs.length ≠ 9 →
      LegacyTransaction.UnmarshalRLPFrom (.arr vs) =
        .error ("not enough elements to decode transaction, expected 9 but found "
          ++ toString vs.length)) ∧
    (∀ vs : List RVal, vs.length ≠ 7 →
      StateTransaction.UnmarshalRLPFrom (.arr vs) =
        .error ("not enough elements to decode transaction, expected 7 but found "
          ++ toString vs.length)) ∧
    (∀ (r : Receipt) (vs : List RVal), vs.length ≠ 4 →
      Receipt.UnmarshalRLPFrom r (.arr vs) = .error "expected 4 elements") ∧
    (∀ vs : List RVal, vs.length ≠ 3 →
      Log.UnmarshalRLPFrom (.arr vs) = .error "bad elems") := by
  refine ⟨?_, ?_, ?_, ?_, ?_, ?_⟩
  · intro h vs hlen
    simp only [Header.UnmarshalRLPFrom, RVal.GetElems]
    rw [if_pos hlen]
  · intro vs hlen
    simp only [Block.UnmarshalRLPFrom, RVal.GetElems]
    rw [if_pos hlen]
  · intro vs hlen
    simp only [LegacyTransaction.UnmarshalRLPFrom, RVal.GetElems]
    rw [if_pos hlen]
  · intro vs hlen
    simp only [StateTransaction.UnmarshalRLPFrom, RVal.GetElems]
    rw [if_pos hlen]
  · intro r vs hlen
    simp only [Receipt.UnmarshalRLPFrom, RVal.GetElems]
    rw [if_pos hlen]
  · intro vs hlen
    simp only [Log.UnmarshalRLPFrom, RVal.GetElems]
    rw [if_pos hlen]

/-- Claim C5 witness: the amended statement applied at 14 (Header), 2 (Block),
2 (legacy), 2 (typed), 2 (Receipt) and 2 (Log) elements. -/
theorem c5_arity_errors_witness :
    Header.UnmarshalRLPFrom emptyHeader (.arr (List.replicate 14 rnil)) =
      .error ("not enough elements to decode header, expected 15 but found "
        ++ toString (List.replicate 14 rnil).length) ∧
    Block.UnmarshalRLPFrom (.arr (List.replicate 2 rnil)) =
      .error (.err ("not enough elements to decode block, expected 3 but found "
        ++ toString (List.replicate 2 rnil).length)) ∧
    LegacyTransaction.UnmarshalRLPFrom (.arr (List.replicate 2 rnil)) =
      .error ("not enough elements to decode transaction, expected 9 but found "
        ++ toString (List.replicate 2 rnil).length) ∧
    StateTransaction.UnmarshalRLPFrom (.arr (List.replicate 2 rnil)) =
      .error ("not enough elements to decode transaction, expected 7 but found "
        ++ toString (List.replicate 2 rnil).length) ∧
    Receipt.UnmarshalRLPFrom {} (.arr (List.replicate 2 rnil)) =
      .error "expected 4 elements" ∧
    Log.UnmarshalRLPFrom (.arr (List.replicate 2 rnil)) = .error "bad elems" :=
  ⟨c5_arity_errors.1 emptyHeader _ (by decide),
   c5_arity_errors.2.1 _ (by decide),
   c5_arity_errors.2.2.1 _ (by decide),
   c5_arity_errors.2.2.2.1 _ (by decide),
   c5_arity_errors.2.2.2.2.1 {} _ (by decide),
   c5_arity_errors.2.2.2.2.2 _ (by decide)⟩

/-- A well-formed legacy transaction element (9 fields, 20-byte recipient). -/
def legacyElem : RVal :=
  .arr [.bytes [1], .bytes [1], .bytes [1], .bytes (List.replicate 20 7),
        .bytes [1], .bytes [], .bytes [1], .bytes [1], .bytes [1]]

/-- A well-formed typed "state" transaction payload element (7 fields). -/
def stateElem : RVal :=
  .arr [.bytes [1], .bytes (List.replicate 20 8), .bytes [2], .arr [],
        .bytes [1], .bytes [1], .bytes [1]]

def legacyTx0 : LegacyTransaction :=
  { nonce := 1, gasPrice := 1, gas := 1, toAddr := some (List.replicate 20 7),
    value := 1, input := [], v := 1, r := 1, s := 1 }

def stateTx0 : StateTransaction :=
  { nonce := 1, toAddr := some (List.replicate 20 8), input := [2],
    signatures := [], v := 1, r := 1, s := 1 }

/-- Claim C6: the stream `[tx_legacy, 0x02, tx_typed_payload]` decodes to
exactly two transactions, the second carrying type tag `0x02` with the typed
"state" payload; and in general any stream element that is a list is decoded
in place as a legacy transaction. -/
theorem c6_legacy_typed_disambiguation :
    (Transactions.UnmarshalRLPFrom (.arr [legacyElem, .bytes [2], stateElem]) =
      .ok [⟨TxTypeLegacy, .legacy legacyTx0⟩, ⟨2, .state stateTx0⟩]) ∧
    (∀ (vs rest : List RVal),
      txsLoop (.arr vs :: rest) =
        match LegacyTransaction.UnmarshalRLPFrom (.arr vs) with
        | .error msg => .error (.err msg)
        | .ok p =>
          match txsLoop rest with
          | .error f => .error f
          | .ok txs => .ok (⟨TxTypeLegacy, .legacy p⟩ :: txs)) := by
  constructor
  · decide
  · intro vs rest
    simp only [txsLoop, RVal.isBytesType, Bool.false_eq_true, if_false]
    cases h1 : LegacyTransaction.UnmarshalRLPFrom (.arr vs) with
    | error msg => simp [txPayloadUnmarshal, TxTypeLegacy, h1]
    | ok p =>
      cases h2 : txsLoop rest with
      | error f => simp [txPayloadUnmarshal, TxTypeLegacy, h1, h2]
      | ok txs => simp [txPayloadUnmarshal, TxTypeLegacy, h1, h2]

/-- Claim C7: in a receipt whose remaining three fields are well-formed, a
first field of any width other than 32 or 1 bytes decodes successfully with
the status implicitly set to zero (`SetStatus(0)`), never an error; a 32-byte
first field sets the root (status stays unset) and a 1-byte first field sets
the status byte. -/
theorem c7_receipt_status_fallback :
    (∀ buf : List Nat, buf.length ≠ 32 → buf.length ≠ 1 →
      Receipt.UnmarshalRLPFrom {}
          (.arr [.bytes buf, .bytes [], .bytes (List.replicate 256 0), .arr []]) =
        .ok { status := some 0 }) ∧
    (∀ buf : List Nat, buf.length = 32 →
      Receipt.UnmarshalRLPFrom {}
          (.arr [.bytes buf, .bytes [], .bytes (List.replicate 256 0), .arr []]) =
        .ok { root := buf }) ∧
    (∀ b : Nat,
      Receipt.UnmarshalRLPFrom {}
          (.arr [.bytes [b], .bytes [], .bytes (List.replicate 256 0), .arr []]) =
        .ok { status := some b }) := by
  refine ⟨?_, ?_, ?_⟩
  · intro buf h32 h1
    simp [Receipt.UnmarshalRLPFrom, RVal.GetElems, RVal.Bytes, RVal.GetUint64,
      RVal.GetBytesBound, beVal, h32, h1, Bind.bind, Except.bind, pure,
      Except.pure, List.mapM.loop]
  · intro buf h32
    simp [Receipt.UnmarshalRLPFrom, RVal.GetElems, RVal.Bytes, RVal.GetUint64,
      RVal.GetBytesBound, beVal, h32, Bind.bind, Except.bind, pure,
      Except.pure, List.mapM.loop]
  · intro b
    simp [Receipt.UnmarshalRLPFrom, RVal.GetElems, RVal.Bytes, RVal.GetUint64,
      RVal.GetBytesBound, beVal, Bind.bind, Except.bind, pure,
      Except.pure, List.mapM.loop]

/-- Claim C7 witness: the fallback clause at the 3-byte first field `[1,2,3]`,
the root clause at a 32-byte field, the status clause at byte 1. -/
theorem c7_receipt_status_fallback_witness :
    Receipt.UnmarshalRLPFrom {}
        (.arr [.bytes [1, 2, 3], .bytes [], .bytes (List.replicate 256 0), .arr []]) =
      .ok { status := some 0 } ∧
    Receipt.UnmarshalRLPFrom {}
        (.arr [.bytes (List.replicate 32 9), .bytes [],
               .bytes (List.replicate 256 0), .arr []]) =
      .ok { root := List.replicate 32 9 } ∧
    Receipt.UnmarshalRLPFrom {}
        (.arr [.bytes [1], .bytes [], .bytes (List.replicate 256 0), .arr []]) =
      .ok { status := some 1 } :=
  ⟨c7_receipt_status_fallback.1 [1, 2, 3] (by decide) (by decide),
   c7_receipt_status_fallback.2.1 (List.replicate 32 9) (by decide),
   c7_receipt_status_fallback.2.2 1⟩

/-- Every bytes-atom element of the stream is followed by a further element
(equivalently, the stream does not end in a bytes atom reached at any index). -/
abbrev noTrailingTag (elems : List RVal) : Prop :=
  ∀ i, i < elems.length → (elems.getD i rnil).isBytesType = true →
    i + 1 < elems.length

theorem noTrailingTag_tail {e : RVal} {rest : List RVal}
    (h : noTrailingTag (e :: rest)) : noTrailingTag rest := by
  intro i hi hb
  have hb' : ((e :: rest).getD (i + 1) rnil).isBytesType = true := by
    simpa [List.getD_cons_succ] using hb
  have h2 := h (i + 1) (by simp [List.length_cons]; omega) hb'
  simp [List.length_cons] at h2
  omega

theorem txsLoop_no_fatal :
    ∀ (n : Nat) (elems : List RVal), elems.length ≤ n → noTrailingTag elems →
      isFatal (txsLoop elems) = false := by
  intro n
  induction n with
  | zero =>
    intro elems hlen _
    have hnil : elems = [] := List.eq_nil_of_length_eq_zero (by omega)
    subst hnil
    rfl
  | succ n ih =>
    intro elems hlen hpre
    cases elems with
    | nil => rfl
    | cons e rest =>
      by_cases hb : e.isBytesType = true
      · cases ht : TransactionType.UnmarshalRLPFrom e with
        | error msg => simp [txsLoop, hb, ht, isFatal]
        | ok t =>
          cases rest with
          | nil =>
            exfalso
            have := hpre 0 (by simp) (by simpa using hb)
            simp at this
          | cons e2 rest2 =>
            cases hp : txPayloadUnmarshal t e2 with
            | error msg => simp [txsLoop, hb, ht, hp, isFatal]
            | ok p =>
              have hrec := ih rest2 (by simp at hlen ⊢; omega)
                (noTrailingTag_tail (noTrailingTag_tail hpre))
              cases hr : txsLoop rest2 with
              | error f =>
                rw [hr] at hrec
                simpa [txsLoop, hb, ht, hp, hr] using hrec
              | ok txs => simp [txsLoop, hb, ht, hp, hr, isFatal]
      · cases hp : txPayloadUnmarshal TxTypeLegacy e with
        | error msg => simp [txsLoop, hb, hp, isFatal]
        | ok p =>
          have hrec := ih rest (by simp at hlen ⊢; omega) (noTrailingTag_tail hpre)
          cases hr : txsLoop rest with
          | error f =>
            rw [hr] at hrec
            simpa [txsLoop, hb, hp, hr] using hrec
          | ok txs => simp [txsLoop, hb, hp, hr, isFatal]

theorem receiptsLoop_no_fatal :
    ∀ (n : Nat) (elems : List RVal), elems.length ≤ n → noTrailingTag elems →
      isFatal (receiptsLoop elems) = false := by
  intro n
  induction n with
  | zero =>
    intro elems hlen _
    have hnil : elems = [] := List.eq_nil_of_length_eq_zero (by omega)
    subst hnil
    rfl
  | succ n ih =>
    intro elems hlen hpre
    cases elems with
    | nil => rfl
    | cons e rest =>
      by_cases hb : e.isBytesType = true
      · cases ht : TransactionType.UnmarshalRLPFrom e with
        | error msg => simp only [receiptsLoop, hb, ht, if_true]; rfl
        | ok t =>
          cases rest with
          | nil =>
            exfalso
            have := hpre 0 (by simp) (by simpa using hb)
            simp at this
          | cons e2 rest2 =>
            cases hp : Receipt.UnmarshalRLPFrom { transactionType := t } e2 with
            | error msg =>
              simp only [receiptsLoop, hb, ht, if_true]
              rw [hp]
              rfl
            | ok rr =>
              have hrec := ih rest2 (by simp at hlen ⊢; omega)
                (noTrailingTag_tail (noTrailingTag_tail hpre))
              cases hr : receiptsLoop rest2 with
              | error f =>
                rw [hr] at hrec
                simp only [receiptsLoop, hb, ht, if_true]
                rw [hp, hr]
                exact hrec
              | ok rs =>
                simp only [receiptsLoop, hb, ht, if_true]
                rw [hp, hr]
                rfl
      · cases hp : Receipt.UnmarshalRLPFrom { transactionType := TxTypeLegacy } e with
        | error msg =>
          simp only [receiptsLoop, hb, Bool.false_eq_true, if_false]
          rw [hp]
          rfl
        | ok rr =>
          have hrec := ih rest (by simp at hlen ⊢; omega) (noTrailingTag_tail hpre)
          cases hr : receiptsLoop rest with
          | error f =>
            rw [hr] at hrec
            simp only [receiptsLoop, hb, Bool.false_eq_true, if_false]
            rw [hp, hr]
            exact hrec
          | ok rs =>
            simp only [receiptsLoop, hb, Bool.false_eq_true, if_false]
            rw [hp, hr]
            rfl

/-- Claim C10 counterexample: a stream whose final element IS a bytes atom
but whose decode nonetheless performs no out-of-bounds access — the two-byte
atom `[7,7]` fails the type-tag parse first, so the decode returns an
ordinary recoverable error, not an index fault. -/
theorem c10_trailing_bytes_counterexample :
    Transactions.UnmarshalRLPFrom (.arr [.bytes [7, 7]]) =
      .error (.err "expected 1 byte transaction type, but size is 2") ∧
    isFatal (Transactions.UnmarshalRLPFrom (.arr [.bytes [7, 7]])) = false := by
  decide

/-- Claim C10 (amended): in both collection decoders, a bytes atom at the scan
position advances the index and accesses the next element with no bounds
check; hence a stream consisting of a bytes atom that parses as a valid type
tag with no following payload makes the `elems[i]` access out of bounds (a
fatal index fault) — but a trailing bytes atom that fails type-tag parsing
(or is consumed as a payload) yields a recoverable error instead — and the
loops never make an out-of-bounds access when every bytes-atom element is
followed by a further element. -/
theorem c10_scan_oob :
    (∀ (b : List Nat) (t : Nat), TransactionType.UnmarshalRLPFrom (.bytes b) = .ok t →
      txsLoop [.bytes b] = .error (.fatal "runtime error: index out of range") ∧
      receiptsLoop [.bytes b] = .error (.fatal "runtime error: index out of range")) ∧
    (∀ elems : List RVal, noTrailingTag elems →
      isFatal (txsLoop elems) = false ∧ isFatal (receiptsLoop elems) = false) := by
  constructor
  · intro b t ht
    constructor
    · simp [txsLoop, RVal.isBytesType, ht]
    · simp [receiptsLoop, RVal.isBytesType, ht]
  · intro elems hpre
    exact ⟨txsLoop_no_fatal elems.length elems (Nat.le_refl _) hpre,
           receiptsLoop_no_fatal elems.length elems (Nat.le_refl _) hpre⟩

/-- Claim C10 witness: the singleton tag stream `[0x02]` faults in both loops,
and a stream whose bytes atom is followed by an element never faults. -/
theorem c10_scan_oob_witness :
    (txsLoop [.bytes [2]] = .error (.fatal "runtime error: index out of range") ∧
     receiptsLoop [.bytes [2]] =
       .error (.fatal "runtime error: index out of range")) ∧
    (isFatal (txsLoop [.bytes [2], .arr []]) = false ∧
     isFatal (receiptsLoop [.bytes [2], .arr []]) = false) :=
  ⟨c10_scan_oob.1 [2] 2 (by decide),
   c10_scan_oob.2 [.bytes [2], .arr []] (by decide)⟩

/-! ## polybft Extra handlers (src/consensus/polybft/extra_fork_london.go and
extra_fork_nikaragva.go)

The `Extra` struct and `Signature` are declared outside src/; the fields
below are exactly the ones the two handlers read and write (§3 "Extra"):
the shared base fields plus the fork-specific strings `Dummy1` (london) and
`Dummy2` (nikaragva).  The `Logger` field only emits warnings and carries no
data. -/

structure Signature where
  aggregatedSignature : List Nat := []
  bitmap : List Nat := []
deriving DecidableEq, Repr

/-- `&Signature{}` — the empty placeholder committed signature. -/
def emptySignature : Signature := {}

structure Extra where
  blockNumber : Nat := 0
  parent : Option Signature := none
  validators : Option (List Nat) := none
  checkpoint : Option (List Nat) := none
  committed : Option Signature := none
  dummy1 : String := ""
  dummy2 : String := ""
deriving DecidableEq, Repr

def exceptIsError {ε α : Type} : Except ε α → Bool
  | .error _ => true
  | .ok _ => false

/-- src `ExtraHandlerLondon.ValidateAdditional`: rejects an empty `Dummy1`. -/
def ExtraHandlerLondon.ValidateAdditional (extra : Extra) (header : Header) :
    Except String Unit :=
  if extra.dummy1 = "" then
    .error ("dummy1 is empty for block " ++ toString header.number)
  else .ok ()

/-- src `ExtraHandlerNikaragva.ValidateAdditional`: rejects an empty `Dummy1`
and then an empty `Dummy2`. -/
def ExtraHandlerNikaragva.ValidateAdditional (extra : Extra) (header : Header) :
    Except String Unit :=
  if extra.dummy1 = "" then
    .error ("dummy1 is empty for block " ++ toString header.number)
  else if extra.dummy2 = "" then
    .error ("dummy2 is empty for block " ++ toString header.number)
  else .ok ()

/-- src `ExtraHandlerAdditionalLondon.GetIbftExtraClean`: constructs a fresh
Extra listing the shared fields, the empty committed signature and `Dummy1`
only — `Dummy2` is left at the Go zero value. -/
def ExtraHandlerAdditionalLondon.GetIbftExtraClean (extra : Extra) : Extra :=
  { blockNumber := extra.blockNumber
    parent := extra.parent
    validators := extra.validators
    checkpoint := extra.checkpoint
    committed := some emptySignature
    dummy1 := extra.dummy1 }

/-- src `ExtraHandlerAdditionalNikaragva.GetIbftExtraClean`: as london's but
also carrying `Dummy2` over. -/
def ExtraHandlerAdditionalNikaragva.GetIbftExtraClean (extra : Extra) : Extra :=
  { blockNumber := extra.blockNumber
    parent := extra.parent
    validators := extra.validators
    checkpoint := extra.checkpoint
    committed := some emptySignature
    dummy1 := extra.dummy1
    dummy2 := extra.dummy2 }

/-- Claim C8: the london handler's `ValidateAdditional` returns an error iff
its single additional field `Dummy1` is empty, the nikaragva handler's iff at
least one of `Dummy1`, `Dummy2` is empty. -/
theorem c8_validate_additional_iff :
    ∀ (e : Extra) (h : Header),
      (exceptIsError (ExtraHandlerLondon.ValidateAdditional e h) = true ↔
        e.dummy1 = "") ∧
      (exceptIsError (ExtraHandlerNikaragva.ValidateAdditional e h) = true ↔
        (e.dummy1 = "" ∨ e.dummy2 = "")) := by
  intro e h
  constructor
  · by_cases h1 : e.dummy1 = "" <;>
      simp [ExtraHandlerLondon.ValidateAdditional, h1, exceptIsError]
  · by_cases h1 : e.dummy1 = "" <;> by_cases h2 : e.dummy2 = "" <;>
      simp [ExtraHandlerNikaragva.ValidateAdditional, h1, h2, exceptIsError]

/-- A concrete Extra populated on every field, with `Dummy2 = "b"`. -/
def extraCE : Extra :=
  { blockNumber := 1, parent := some ⟨[5], [6]⟩, validators := some [1],
    checkpoint := some [2], committed := some ⟨[3], [4]⟩,
    dummy1 := "a", dummy2 := "b" }

/-- Claim C9 counterexample: cleaning an Extra carrying `Dummy2 = "b"` with
the london handler resets Dummy2 to the empty string — a fork-specific field
belonging to the other variant is NOT preserved verbatim. -/
theorem c9_clean_counterexample :
    (ExtraHandlerAdditionalLondon.GetIbftExtraClean extraCE).dummy2 = "" ∧
    extraCE.dummy2 ≠ "" := by
  decide

/-- Claim C9 (amended): each variant's clean operation returns a copy with
the committed signature reset to the empty placeholder, preserving the shared
fields and that variant's OWN fork-specific fields verbatim; a field
belonging to the other variant is reset to its zero value by the london
handler (`Dummy2` becomes empty), while the nikaragva handler carries both
over.  The input Extra is untouched — Go builds a fresh struct, and the
embedding is a pure function of the input. -/
theorem c9_clean_resets_committed :
    ∀ e : Extra,
      ExtraHandlerAdditionalLondon.GetIbftExtraClean e =
        { e with committed := some emptySignature, dummy2 := "" } ∧
      ExtraHandlerAdditionalNikaragva.GetIbftExtraClean e =
        { e with committed := some emptySignature } := by
  intro e
  exact ⟨rfl, rfl⟩

end PE
